import Mathlib

/-!
Verification model of the STLessCoro cooperative task runtime
(`src/unnamed/part_000` and `src/cpp/coroutines/result.hpp`).

The embedding is shallow: each C++ operation of the runtime (the Promise
hooks, the Awaiter protocol, the Task wrapper, and the Scheduler's resume
loop) becomes an executable Lean function over an explicit state.  A
coroutine frame's saved execution state is a `Frame`; the body of a
coroutine is a first-order program (`FrameCode`) whose constructors are
exactly the suspension points the runtime can observe (`co_yield`,
`co_await` of a child task, `co_return`).  Resuming a frame runs its body
up to the next suspension point, performing the same bookkeeping the C++
Promise/Awaiter hooks perform.
-/

namespace STLessCoro

/- Type-erased produced values (the bits stored behind `shared_ptr<void>`)
are naturals, and so are frame ids (each `std::coroutine_handle<Promise>`
is identified by the frame it refers to); both are written `Nat` so that
arithmetic automation sees them directly. -/

/-- The body of a coroutine, as the runtime can observe it: a sequence of
suspension points.  `ret v` is `co_return v`; `retRead` is
`co_return r.result<T>()` where `r` is the `Result` obtained from the most
recent `co_await`; `pause k` is `co_yield` followed by the rest `k`;
`await c k` is `co_await` of a freshly created child task with body `c`,
followed by the rest `k`. -/
inductive FrameCode where
  | ret (v : Nat)
  | retRead
  | pause (k : FrameCode)
  | await (child : FrameCode) (k : FrameCode)
deriving DecidableEq

/-- Where a frame is currently suspended.  `suspended c`: at
`initial_suspend` or after a `co_yield`, with remaining body `c`.
`awaiting ch k`: at the `co_await` of child frame `ch`, with remaining body
`k` after the await.  `final`: at `final_suspend`. -/
inductive FrameStatus where
  | suspended (c : FrameCode)
  | awaiting (child : Nat) (k : FrameCode)
  | final
deriving DecidableEq

/-- A coroutine frame together with its `Task::Promise` fields
(`m_done`, `m_data`, `m_next`, `m_previous` in the source).  `status` is the
suspension point the frame is parked at; `alive` records whether the frame
storage has been destroyed via `handle.destroy()`; `lastRead` instruments
the value obtained through `Awaiter::await_resume` + `Result::result<T>`
(`none` models a null `shared_ptr`, i.e. a read of a finalized cell). -/
structure Frame where
  m_done : Bool
  m_data : Option Nat
  m_next : Option Nat
  m_previous : Option Nat
  status : FrameStatus
  alive : Bool
  lastRead : Option Nat
deriving DecidableEq

/-- The content of a destroyed / never-allocated frame slot. -/
def deadFrame : Frame :=
  { m_done := false, m_data := none, m_next := none, m_previous := none
    status := FrameStatus.final, alive := false, lastRead := none }

/-- The heap of coroutine frames.  `nextId` is the next fresh frame id;
`stepsRun` counts executed body segments (it is incremented exactly when a
resumed coroutine executes user code up to its next suspension point). -/
structure Mem where
  frames : Nat → Frame
  nextId : Nat
  stepsRun : Nat

def Mem.getFrame (m : Mem) (h : Nat) : Frame := m.frames h

def Mem.setFrame (m : Mem) (h : Nat) (f : Frame) : Mem :=
  { m with frames := fun i => if i = h then f else m.frames i }

def Mem.modifyFrame (m : Mem) (h : Nat) (g : Frame → Frame) : Mem :=
  m.setFrame h (g (m.getFrame h))

/-- Allocate a fresh frame (creation of a coroutine frame by a call to a
coroutine function). -/
def Mem.alloc (m : Mem) (f : Frame) : Mem × Nat :=
  ({ m.setFrame m.nextId f with nextId := m.nextId + 1 }, m.nextId)

/-- `Promise::yield_value` (part_000 lines 69-72): `m_next` is set to the
handle of this same frame, then the coroutine suspends. -/
def Promise.yield_value (h : Nat) (f : Frame) : Frame :=
  { f with m_next := some h }

/-- `Promise::return_value` (part_000 lines 79-87): the returned value is
stored into the type-erased completion cell `m_data`.  In C++ the stored
value is always a freshly constructed `T`; when the returned expression is
itself the read of a finalized (null) cell, the stored value is
indeterminate, which the model renders as `none`. -/
def Promise.return_value (v : Option Nat) (f : Frame) : Frame :=
  { f with m_data := v }

/-- `Promise::final_suspend` (part_000 lines 92-96): `m_done` is set and
`m_next` becomes `m_previous`, then the coroutine suspends. -/
def Promise.final_suspend (f : Frame) : Frame :=
  { f with m_done := true, m_next := f.m_previous }

/-- `Promise::~Promise` (part_000 lines 108-112): the completion cell is
released and both links are nulled.  The frame stays parked where it was. -/
def Promise.destruct (f : Frame) : Frame :=
  { f with m_data := none, m_next := none, m_previous := none }

/-- `Task::Awaiter::await_ready` (part_000 lines 125-127). -/
def Awaiter.await_ready : Bool := false

/-- `Task::Awaiter::await_suspend` (part_000 lines 133-136): links
parent → child via `m_next` and child → parent via `m_previous`. -/
def Awaiter.await_suspend (m : Mem) (parent child : Nat) : Mem :=
  let m1 := m.modifyFrame parent fun f => { f with m_next := some child }
  m1.modifyFrame child fun f => { f with m_previous := some parent }

/-- `Task::Awaiter::await_resume` (part_000 lines 142-144) followed by
`Result::result<T>`: the parent obtains the child's completion cell and
dereferences it.  A null (already released) cell yields `none`. -/
def Awaiter.await_resume (m : Mem) (child : Nat) : Option Nat :=
  (m.getFrame child).m_data

/-- The `Task` wrapper: an owning, possibly empty coroutine handle. -/
structure Task where
  m_handle : Option Nat
deriving DecidableEq

/-- The frame created for a freshly called coroutine:
`Promise::get_return_object` sets `m_done = 0`, and `initial_suspend`
parks the frame before any body statement has run. -/
def rootFrame (c : FrameCode) : Frame :=
  { m_done := false, m_data := none, m_next := none, m_previous := none
    status := FrameStatus.suspended c, alive := true, lastRead := none }

/-- Calling a coroutine function with body `c`: allocates the frame and
returns the owning `Task` (part_000 lines 53-56 and 61-63). -/
def Task.create (m : Mem) (c : FrameCode) : Mem × Task :=
  let p := m.alloc (rootFrame c)
  (p.1, ⟨some p.2⟩)

/-- `handle.destroy()`: tears down the frame storage without running any of
the coroutine body. -/
def Mem.destroyFrame (m : Mem) (h : Nat) : Mem :=
  m.setFrame h deadFrame

/-- `Task::~Task` (part_000 lines 170-175): destroys the owned frame if the
handle is non-empty, otherwise does nothing. -/
def Task.destructor (m : Mem) (t : Task) : Mem :=
  match t.m_handle with
  | some h => m.destroyFrame h
  | none => m

/-- Run the body of frame `h` from its current suspension point up to the
next suspension point (one `handle.resume()` segment of user code).  Each
constructor of `FrameCode` is one suspension point:
`pause` performs `yield_value`; `await` creates the child task and performs
`await_ready`/`await_suspend`; `ret`/`retRead` perform `return_value`
followed by `final_suspend`. -/
def Mem.exec (m : Mem) (h : Nat) (c : FrameCode) : Mem :=
  let m0 : Mem := { m with stepsRun := m.stepsRun + 1 }
  match c with
  | FrameCode.pause k =>
      m0.modifyFrame h fun f =>
        Promise.yield_value h { f with status := FrameStatus.suspended k }
  | FrameCode.await childCode k =>
      let p := m0.alloc (rootFrame childCode)
      let m2 := Awaiter.await_suspend p.1 h p.2
      m2.modifyFrame h fun f => { f with status := FrameStatus.awaiting p.2 k }
  | FrameCode.ret v =>
      m0.modifyFrame h fun f =>
        Promise.final_suspend (Promise.return_value (some v)
          { f with status := FrameStatus.final })
  | FrameCode.retRead =>
      m0.modifyFrame h fun f =>
        Promise.final_suspend (Promise.return_value f.lastRead
          { f with status := FrameStatus.final })

/-- `handle.resume()`: continue the frame from its suspension point.  A
frame parked at `final_suspend` must not be resumed (doing so is undefined
behavior in C++); the model makes it a no-op, and the driver never does it
on well-formed states. -/
def Mem.resumeFrame (m : Mem) (h : Nat) : Mem :=
  match (m.getFrame h).status with
  | FrameStatus.suspended c => m.exec h c
  | FrameStatus.awaiting ch k =>
      let r := Awaiter.await_resume m ch
      (m.modifyFrame h fun f => { f with lastRead := r }).exec h k
  | FrameStatus.final => m

/-- The driver's state (part_000 lines 233-235): the vector of root-tracked
frame handles and the cached live count. -/
structure Scheduler where
  m_coroutines : List Nat
  m_size : Nat
deriving DecidableEq

/-- The whole system: the frame heap plus the driver. -/
structure Sys where
  mem : Mem
  sched : Scheduler

/-- `Scheduler::schedule` (part_000 lines 191-201): pushes the task's
handle, empties the wrapper and increments the live count.  (The model is
only ever applied to tasks still owning a frame; an empty C++ task would
push a null handle, rendered here by the never-allocated id `nextId`.) -/
def Scheduler.schedule (s : Sys) (t : Task) : Sys × Task :=
  ({ s with
      sched :=
        { m_coroutines := s.sched.m_coroutines ++ [t.m_handle.getD s.mem.nextId]
          m_size := s.sched.m_size + 1 } },
   ⟨none⟩)

/-- One iteration of the loop in `Scheduler::resume` (part_000 lines
213-228) at slot `i`: resume the handle stored in the slot, then inspect
`m_next`.  If set, the slot is rewired to it and a finished promise is
destructed; if unset, the promise is destructed and the slot is removed by
swapping in the last slot and popping. -/
def tickBody (s : Sys) (i : Nat) : Sys :=
  let h := s.sched.m_coroutines.getD i 0
  let m1 := s.mem.resumeFrame h
  let pr := m1.getFrame h
  match pr.m_next with
  | some nxt =>
      let m2 := if pr.m_done then m1.modifyFrame h Promise.destruct else m1
      { mem := m2
        sched := { s.sched with m_coroutines := s.sched.m_coroutines.set i nxt } }
  | none =>
      let m2 := m1.modifyFrame h Promise.destruct
      let l := s.sched.m_coroutines
      { mem := m2
        sched :=
          { m_coroutines := (l.set i (l.getLast?.getD 0)).dropLast
            m_size := s.sched.m_size - 1 } }

/-- The loop `for (i = 0; i < m_size; ++i)` of `Scheduler::resume`.  The
fuel argument is the loop's entry value of `m_size`; since `i` increases by
one per iteration and `m_size` never increases, the loop condition
`i < m_size` fails no later than when the fuel runs out, so the fueled loop
is exactly the C++ loop. -/
def tickLoop : Nat → Sys → Nat → Sys
  | 0, s, _ => s
  | fuel + 1, s, i =>
      if i < s.sched.m_size then tickLoop fuel (tickBody s i) (i + 1) else s

/-- `Scheduler::resume` (part_000 lines 203-231): one full tick, returning
the new state and whether the live count reached zero. -/
def Scheduler.resume (s : Sys) : Sys × Bool :=
  let s1 := tickLoop s.sched.m_size s 0
  (s1, s1.sched.m_size == 0)

/-- The state after one tick. -/
def tick (s : Sys) : Sys := (Scheduler.resume s).1

/-- The boolean returned by one tick. -/
def tickResult (s : Sys) : Bool := (Scheduler.resume s).2

/-- The empty heap. -/
def emptyMem : Mem := { frames := fun _ => deadFrame, nextId := 0, stepsRun := 0 }

/-- A system with nothing submitted yet. -/
def emptySys : Sys := { mem := emptyMem, sched := { m_coroutines := [], m_size := 0 } }

/-- Create one task with body `c` and submit it to the driver. -/
def submitOne (s : Sys) (c : FrameCode) : Sys :=
  let p := Task.create s.mem c
  (Scheduler.schedule { s with mem := p.1 } p.2).1

/-- Create and submit a task for each body in `cs`, in order, starting from
the empty system. -/
def submitAll (cs : List FrameCode) : Sys := cs.foldl submitOne emptySys

/-- A body with exactly one pause and no awaits. -/
def pauseCode : FrameCode := FrameCode.pause (FrameCode.ret 0)

/-- A body with exactly `n` sequential pauses, finishing with value `v`. -/
def pauses : Nat → Nat → FrameCode
  | 0, v => FrameCode.ret v
  | n + 1, v => FrameCode.pause (pauses n v)

/-- Number of suspension points remaining in a body. -/
def FrameCode.weight : FrameCode → Nat
  | FrameCode.ret _ => 1
  | FrameCode.retRead => 1
  | FrameCode.pause k => 1 + k.weight
  | FrameCode.await c k => 1 + c.weight + k.weight

/-- Remaining suspension points of a frame, by suspension point.  A frame
awaiting a child only counts its own continuation; the child frame is
counted on its own. -/
def Frame.weight (f : Frame) : Nat :=
  match f.status with
  | FrameStatus.suspended c => c.weight
  | FrameStatus.awaiting _ k => k.weight
  | FrameStatus.final => 0

/-- Total remaining suspension points over all allocated frames. -/
def totalWeight (m : Mem) : Nat :=
  ∑ i ∈ Finset.range m.nextId, (m.getFrame i).weight

/-- Termination measure for the driver: remaining work plus live count. -/
def sysMeasure (s : Sys) : Nat := totalWeight s.mem + s.sched.m_size

/-- Iterated `handle.resume()` on one frame. -/
def resumeN (m : Mem) (h : Nat) (k : Nat) : Mem :=
  (fun mm => Mem.resumeFrame mm h)^[k] m

/-- Well-formedness of a driver state, established by `submit` and preserved
by `tick`: the cached live count equals the vector length, every tracked
handle and every `m_previous` link refers to an allocated frame, and every
frame parked at `final_suspend` has already had its promise destructed. -/
structure Inv (s : Sys) : Prop where
  size_eq : s.sched.m_size = s.sched.m_coroutines.length
  slots_lt : ∀ h ∈ s.sched.m_coroutines, h < s.mem.nextId
  final_destructed : ∀ h, (s.mem.getFrame h).status = FrameStatus.final →
    (s.mem.getFrame h).m_data = none ∧ (s.mem.getFrame h).m_next = none ∧
      (s.mem.getFrame h).m_previous = none
  prev_lt : ∀ h p, (s.mem.getFrame h).m_previous = some p → p < s.mem.nextId
  done_final : ∀ h, (s.mem.getFrame h).m_done = true →
    (s.mem.getFrame h).status = FrameStatus.final

/-! ### The Completion Cell (`Result`) and `make_shared`, modeled at the
level of typed object storage.

`Promise::return_value` stores the returned value of concrete type `T`
behind a `shared_ptr<void>` created by `make_shared<T>(value)`; the two
`Result::result<T>` implementations recover it by casting the type-erased
pointer back to `T` and dereferencing.  The model gives addresses as
naturals, a store of typed values, and renders both casts (which are
address-preserving in C++) explicitly; dereferencing with a mismatched
type is undefined behavior by contract and is modeled as `none`. -/

/-- Concrete C++ value types a completion cell may hold. -/
inductive CTy where
  | tint
  | tbool
  | tnat
deriving DecidableEq

/-- A typed stored object. -/
inductive TVal where
  | vint (i : Int)
  | vbool (b : Bool)
  | vnat (n : Nat)
deriving DecidableEq

/-- The concrete type of a stored object. -/
def TVal.ty : TVal → CTy
  | TVal.vint _ => CTy.tint
  | TVal.vbool _ => CTy.tbool
  | TVal.vnat _ => CTy.tnat

/-- Object storage reached through type-erased pointers; an address is an
index into the store. -/
structure CMem where
  store : List TVal
deriving DecidableEq

/-- `std::make_shared<T>(value)` as used by `Promise::return_value`
(part_000 lines 79-87): allocates storage holding the value and returns the
owning pointer to it. -/
def CMem.make_shared (m : CMem) (v : TVal) : CMem × Nat :=
  (⟨m.store ++ [v]⟩, m.store.length)

/-- `std::static_pointer_cast<T>` of a `shared_ptr<void>`
(result.hpp line 17): the stored address is unchanged. -/
def static_pointer_cast (a : Nat) : Nat := a

/-- The C-style `(T *)` cast of `m_data.get()` (part_000 line 25): the
address is unchanged. -/
def c_style_pointer_cast (a : Nat) : Nat := a

/-- Dereference an address at an expected type: yields the stored object
when the type matches; a mismatched type or a dangling address is undefined
behavior by contract, modeled as `none`. -/
def CMem.derefAs (m : CMem) (T : CTy) (a : Nat) : Option TVal :=
  match m.store[a]? with
  | some v => if v.ty = T then some v else none
  | none => none

/-- `Result::result<T>` of src/cpp/coroutines/result.hpp (lines 15-18):
`*std::static_pointer_cast<T>(m_data).get()`. -/
def Result.result_hpp (m : CMem) (T : CTy) (data : Nat) : Option TVal :=
  m.derefAs T (static_pointer_cast data)

/-- `Result::result<T>` of src/unnamed/part_000 (lines 23-26):
`(T) *((T *) m_data.get())`. -/
def Result.result_raw (m : CMem) (T : CTy) (data : Nat) : Option TVal :=
  m.derefAs T (c_style_pointer_cast data)

/-- The scenario of the spec's awaited-child property: a single root task A
whose body awaits a freshly created child task B with body `co_return 42`,
then returns the value read from B's completion cell. -/
def awaitScenario : Sys :=
  submitAll [FrameCode.await (FrameCode.ret 42) FrameCode.retRead]

/-- A concrete single-slot state whose tracked frame is about to finish and
has a parent link: frame 0 is parked before `co_return 9` with
`m_previous = 5`. -/
def c6Scenario : Sys :=
  Sys.mk
    (Mem.mk
      (fun i => if i = 0
        then { rootFrame (FrameCode.ret 9) with m_previous := some 5 }
        else deadFrame)
      1 0)
    (Scheduler.mk [0] 1)

/-! ### Frame-heap lemmas -/

@[simp]
theorem getFrame_setFrame_same (m : Mem) (h : Nat) (f : Frame) :
    (m.setFrame h f).getFrame h = f := by
  simp [Mem.getFrame, Mem.setFrame]

theorem getFrame_setFrame_ne (m : Mem) (h h' : Nat) (f : Frame) (hne : h' ≠ h) :
    (m.setFrame h f).getFrame h' = m.getFrame h' := by
  simp [Mem.getFrame, Mem.setFrame, hne]

@[simp]
theorem setFrame_stepsRun (m : Mem) (h : Nat) (f : Frame) :
    (m.setFrame h f).stepsRun = m.stepsRun := rfl

@[simp]
theorem setFrame_nextId (m : Mem) (h : Nat) (f : Frame) :
    (m.setFrame h f).nextId = m.nextId := rfl

theorem setFrame_setFrame_same (m : Mem) (h : Nat) (f f' : Frame) :
    (m.setFrame h f).setFrame h f' = m.setFrame h f' := by
  unfold Mem.setFrame
  congr 1
  funext i
  by_cases hih : i = h <;> simp [hih]

/-! ### Characterization of one resume segment, case by case -/

theorem exec_pause (m : Mem) (h : Nat) (k : FrameCode) :
    m.exec h (FrameCode.pause k) =
      Mem.setFrame { m with stepsRun := m.stepsRun + 1 } h
        { m.getFrame h with m_next := some h, status := FrameStatus.suspended k } := rfl

theorem exec_ret (m : Mem) (h : Nat) (v : Nat) :
    m.exec h (FrameCode.ret v) =
      Mem.setFrame { m with stepsRun := m.stepsRun + 1 } h
        { m.getFrame h with m_done := true, m_data := some v, m_next := (m.getFrame h).m_previous, status := FrameStatus.final } := rfl

theorem exec_retRead (m : Mem) (h : Nat) :
    m.exec h FrameCode.retRead =
      Mem.setFrame { m with stepsRun := m.stepsRun + 1 } h
        { m.getFrame h with m_done := true, m_data := (m.getFrame h).lastRead, m_next := (m.getFrame h).m_previous, status := FrameStatus.final } := rfl

theorem exec_await (m : Mem) (h : Nat) (cc k : FrameCode) (hne : h ≠ m.nextId) :
    m.exec h (FrameCode.await cc k) =
      Mem.mk
        (fun i =>
          if i = h then
            { m.getFrame h with m_next := some m.nextId, status := FrameStatus.awaiting m.nextId k }
          else if i = m.nextId then { rootFrame cc with m_previous := some h }
          else m.frames i)
        (m.nextId + 1) (m.stepsRun + 1) := by
  have hne2 : m.nextId ≠ h := Ne.symm hne
  unfold Mem.exec Mem.alloc Awaiter.await_suspend Mem.modifyFrame Mem.setFrame Mem.getFrame
  simp only
  congr 1
  funext i
  by_cases hih : i = h
  · simp [hih, hne, hne2]
  · by_cases hin : i = m.nextId <;> simp [hih, hin, hne, hne2]

theorem resumeFrame_suspended (m : Mem) (h : Nat) (c : FrameCode)
    (hst : (m.getFrame h).status = FrameStatus.suspended c) :
    m.resumeFrame h = m.exec h c := by
  unfold Mem.resumeFrame
  rw [hst]

theorem resumeFrame_awaiting (m : Mem) (h ch : Nat) (k : FrameCode)
    (hst : (m.getFrame h).status = FrameStatus.awaiting ch k) :
    m.resumeFrame h =
      (m.modifyFrame h fun f => { f with lastRead := (m.getFrame ch).m_data }).exec h k := by
  unfold Mem.resumeFrame
  rw [hst]
  rfl

theorem resumeFrame_final (m : Mem) (h : Nat)
    (hst : (m.getFrame h).status = FrameStatus.final) :
    m.resumeFrame h = m := by
  unfold Mem.resumeFrame
  rw [hst]

/-! ### Characterization of one driver-loop iteration, case by case -/

theorem tickBody_pause (s : Sys) (i : Nat) (h : Nat) (k : FrameCode)
    (hh : s.sched.m_coroutines.getD i 0 = h)
    (hst : (s.mem.getFrame h).status = FrameStatus.suspended (FrameCode.pause k))
    (hdone : (s.mem.getFrame h).m_done = false) :
    tickBody s i =
      Sys.mk
        (Mem.setFrame { s.mem with stepsRun := s.mem.stepsRun + 1 } h
          { s.mem.getFrame h with m_next := some h, status := FrameStatus.suspended k })
        (Scheduler.mk (s.sched.m_coroutines.set i h) s.sched.m_size) := by
  unfold tickBody
  simp only [hh, resumeFrame_suspended s.mem h _ hst, exec_pause, getFrame_setFrame_same]
  simp [hdone]

theorem tickBody_ret_parent (s : Sys) (i : Nat) (h p : Nat) (v : Nat)
    (hh : s.sched.m_coroutines.getD i 0 = h)
    (hst : (s.mem.getFrame h).status = FrameStatus.suspended (FrameCode.ret v))
    (hp : (s.mem.getFrame h).m_previous = some p) :
    tickBody s i =
      Sys.mk
        (Mem.setFrame { s.mem with stepsRun := s.mem.stepsRun + 1 } h
          { s.mem.getFrame h with m_done := true, m_data := none, m_next := none, m_previous := none, status := FrameStatus.final })
        (Scheduler.mk (s.sched.m_coroutines.set i p) s.sched.m_size) := by
  unfold tickBody
  simp only [hh, resumeFrame_suspended s.mem h _ hst, exec_ret, getFrame_setFrame_same]
  simp only [hp]
  simp [Mem.modifyFrame, Promise.destruct, setFrame_setFrame_same]

theorem tickBody_ret_root (s : Sys) (i : Nat) (h : Nat) (v : Nat)
    (hh : s.sched.m_coroutines.getD i 0 = h)
    (hst : (s.mem.getFrame h).status = FrameStatus.suspended (FrameCode.ret v))
    (hp : (s.mem.getFrame h).m_previous = none) :
    tickBody s i =
      Sys.mk
        (Mem.setFrame { s.mem with stepsRun := s.mem.stepsRun + 1 } h
          { s.mem.getFrame h with m_done := true, m_data := none, m_next := none, m_previous := none, status := FrameStatus.final })
        (Scheduler.mk
          ((s.sched.m_coroutines.set i (s.sched.m_coroutines.getLast?.getD 0)).dropLast)
          (s.sched.m_size - 1)) := by
  unfold tickBody
  simp only [hh, resumeFrame_suspended s.mem h _ hst, exec_ret, getFrame_setFrame_same]
  simp only [hp]
  simp [Mem.modifyFrame, Promise.destruct, setFrame_setFrame_same]

/-! ### C4: completion-cell round trip -/

/-- C4: for every value `v` of a concrete type `T`, if a frame finishes
with `v` (whose `return_value` stores it via `make_shared<T>`), then
reading the completion cell with the matching expected type `T` returns
exactly `v`. -/
theorem c4_finish_read_roundtrip (m : CMem) (v : TVal) :
    Result.result_hpp (m.make_shared v).1 v.ty (m.make_shared v).2 = some v := by
  simp [Result.result_hpp, CMem.make_shared, CMem.derefAs, static_pointer_cast]

/-! ### C10: the two `Result::result<T>` implementations agree -/

/-- C10: the `result.hpp` implementation of the completion-cell read (via
`static_pointer_cast`) and the `part_000` implementation (via a raw pointer
cast) return the same value for every stored data pointer — in particular
for every pointer produced by the finishing operation — and every matching
type `T`. -/
theorem c10_result_implementations_agree :
    (∀ (m : CMem) (T : CTy) (d : Nat),
      Result.result_hpp m T d = Result.result_raw m T d) ∧
    (∀ (m : CMem) (v : TVal),
      Result.result_hpp (m.make_shared v).1 v.ty (m.make_shared v).2 =
        Result.result_raw (m.make_shared v).1 v.ty (m.make_shared v).2) :=
  ⟨fun _ _ _ => rfl, fun _ _ => rfl⟩

/-! ### C5: the await protocol always suspends and links the two frames -/

/-- C5: for every await of a child task, `await_ready` reports not ready
(so the awaiting frame always suspends first), and `await_suspend` sets the
parent frame's `m_next` to the child and the child frame's `m_previous` to
the parent. -/
theorem c5_awaiter_always_suspends_and_links :
    Awaiter.await_ready = false ∧
    ∀ (m : Mem) (p c : Nat),
      ((Awaiter.await_suspend m p c).getFrame p).m_next = some c ∧
      ((Awaiter.await_suspend m p c).getFrame c).m_previous = some p := by
  refine ⟨rfl, fun m p c => ?_⟩
  unfold Awaiter.await_suspend Mem.modifyFrame
  by_cases hpc : p = c
  · subst hpc
    simp
  · rw [getFrame_setFrame_ne _ _ _ _ hpc]
    simp [getFrame_setFrame_ne, hpc]

/-! ### C9: ownership transfer and teardown of the Task wrapper -/

/-- C9: after `schedule` transfers a Task's frame into the driver, the Task
wrapper's handle is empty and its destructor is a no-op; destroying a Task
that still owns a frame tears that frame down without executing any of the
computation's body (the count of executed body segments is unchanged, and
no other frame is touched); destroying an already-emptied Task is a safe
no-op. -/
theorem c9_task_ownership_transfer (sys : Sys) (t : Task) (hid : Nat) (m : Mem)
    (ht : t.m_handle = some hid) :
    (Scheduler.schedule sys t).2 = Task.mk none ∧
    Task.destructor m (Task.mk none) = m ∧
    Task.destructor m t = m.destroyFrame hid ∧
    (Task.destructor m t).stepsRun = m.stepsRun ∧
    ((Task.destructor m t).getFrame hid).alive = false ∧
    ∀ j, j ≠ hid → (Task.destructor m t).getFrame j = m.getFrame j := by
  refine ⟨rfl, rfl, ?_, ?_, ?_, ?_⟩
  · simp [Task.destructor, ht]
  · simp [Task.destructor, ht, Mem.destroyFrame]
  · simp [Task.destructor, ht, Mem.destroyFrame, deadFrame]
  · intro j hj
    simp [Task.destructor, ht, Mem.destroyFrame, getFrame_setFrame_ne _ _ _ _ hj]

/-- Witness for C9 at a concrete task owning frame 0. -/
theorem c9_task_ownership_transfer_witness :
    (Scheduler.schedule emptySys (Task.mk (some 0))).2 = Task.mk none ∧
    Task.destructor emptyMem (Task.mk none) = emptyMem ∧
    Task.destructor emptyMem (Task.mk (some 0)) = emptyMem.destroyFrame 0 ∧
    (Task.destructor emptyMem (Task.mk (some 0))).stepsRun = emptyMem.stepsRun ∧
    ((Task.destructor emptyMem (Task.mk (some 0))).getFrame 0).alive = false ∧
    (Task.destructor emptyMem (Task.mk (some 0))).getFrame 1 = emptyMem.getFrame 1 := by
  have hmain := c9_task_ownership_transfer emptySys (Task.mk (some 0)) 0 emptyMem rfl
  exact ⟨hmain.1, hmain.2.1, hmain.2.2.1, hmain.2.2.2.1, hmain.2.2.2.2.1,
    hmain.2.2.2.2.2 1 (by decide)⟩

/-! ### C2: the awaited-child scenario, exact behavior -/

/-- C2, counterexample to the claim as stated: in the scenario where root A
awaits child B and B finishes producing 42 on its first resumption, after
exactly two calls to `tick` the live count is not 0 and A has not observed
42 (A is still parked at the await; it is resumed only by the third tick). -/
theorem c2_counterexample_two_ticks :
    ¬ ((tick (tick awaitScenario)).sched.m_size = 0 ∧
       ((tick (tick awaitScenario)).mem.getFrame 0).lastRead = some 42) := by
  decide

/-- C2 as amended: after two ticks the live count is still 1; the third
tick resumes A past the await and brings the live count to 0 (that tick
returning true), but A observes an empty completion cell rather than 42,
the child's cell having been finalized by the driver during the second
tick. -/
theorem c2_amended_three_ticks :
    (tick (tick awaitScenario)).sched.m_size = 1 ∧
    (tick (tick (tick awaitScenario))).sched.m_size = 0 ∧
    tickResult (tick (tick awaitScenario)) = true ∧
    ((tick (tick (tick awaitScenario))).mem.getFrame 0).lastRead = none := by
  decide

/-! ### C3: finalization of an awaited child's cell versus the parent's read -/

/-- C3 fails on the code: in the A-awaits-B scenario, B's resumption during
the second tick stores 42 in its completion cell, yet after that same tick
the cell is already released (`m_data = none`) while the parent A is still
parked at the await and has read nothing; the read A performs when resumed
in the third tick therefore yields nothing.  Finalization of the finished
awaited child's completion state happens before the parent's read, not
after it. -/
theorem c3_finalization_precedes_parent_read :
    (((tick awaitScenario).mem.resumeFrame 1).getFrame 1).m_data = some 42 ∧
    ((tick (tick awaitScenario)).mem.getFrame 1).m_data = none ∧
    ((tick (tick awaitScenario)).mem.getFrame 0).status =
      FrameStatus.awaiting 1 FrameCode.retRead ∧
    ((tick (tick awaitScenario)).mem.getFrame 0).lastRead = none ∧
    ((tick (tick (tick awaitScenario))).mem.getFrame 0).lastRead = none := by
  decide

/-! ### C6: finishing sets `done` and rewires `next` to the parent -/

/-- C6: when a frame runs to completion, `final_suspend` sets its done flag
and makes its `m_next` link its `m_previous` (parent) link — unset for a
root frame with no parent — and the driver's loop consequently stores the
parent into the slot, so the parent is resumed on the following attempt
with no separate notification. -/
theorem c6_finish_rewires_to_parent (f : Frame) (sys : Sys) (h p : Nat) (v : Nat)
    (h1 : sys.sched.m_coroutines = [h]) (h2 : sys.sched.m_size = 1)
    (h3 : (sys.mem.getFrame h).status = FrameStatus.suspended (FrameCode.ret v))
    (h4 : (sys.mem.getFrame h).m_previous = some p) :
    (Promise.final_suspend f).m_done = true ∧
    (Promise.final_suspend f).m_next = f.m_previous ∧
    (f.m_previous = none → (Promise.final_suspend f).m_next = none) ∧
    (tick sys).sched.m_coroutines = [p] ∧
    (tick sys).sched.m_size = 1 := by
  have hbody := tickBody_ret_parent sys 0 h p v (by rw [h1]; rfl) h3 h4
  have htick : tick sys = tickBody sys 0 := by
    simp [tick, Scheduler.resume, h2, tickLoop]
  refine ⟨rfl, rfl, fun hn => by simp [Promise.final_suspend, hn], ?_, ?_⟩ <;>
    rw [htick, hbody] <;> simp [h1, h2]

/-- Witness for C6 on the concrete state `c6Scenario`. -/
theorem c6_finish_rewires_to_parent_witness :
    (Promise.final_suspend deadFrame).m_done = true ∧
    (Promise.final_suspend deadFrame).m_next = none ∧
    (tick c6Scenario).sched.m_coroutines = [5] ∧
    (tick c6Scenario).sched.m_size = 1 := by
  have hm := c6_finish_rewires_to_parent deadFrame c6Scenario 0 5 9 rfl rfl (by decide) (by decide)
  exact ⟨hm.1, hm.2.2.1 rfl, hm.2.2.2.1, hm.2.2.2.2⟩

/-! ### C7: a task with N pauses finishes on its (N+1)-st resumption -/

theorem resumeN_zero (m : Mem) (h : Nat) : resumeN m h 0 = m := rfl

theorem resumeN_succ (m : Mem) (h : Nat) (k : Nat) :
    resumeN m h (k + 1) = resumeN (m.resumeFrame h) h k := by
  unfold resumeN
  rw [Function.iterate_succ_apply]

theorem pauses_need_n_resumes (n : Nat) (v : Nat) :
    ∀ (m : Mem) (h : Nat),
      (m.getFrame h).status = FrameStatus.suspended (pauses n v) →
      (m.getFrame h).m_done = false →
      (∀ k, k ≤ n → ((resumeN m h k).getFrame h).m_done = false) ∧
      ((resumeN m h (n + 1)).getFrame h).m_done = true := by
  induction n with
  | zero =>
    intro m h hst hdone
    refine ⟨?_, ?_⟩
    · intro k hk
      have hk0 : k = 0 := Nat.le_zero.mp hk
      subst hk0
      simpa [resumeN_zero] using hdone
    · rw [resumeN_succ, resumeN_zero, resumeFrame_suspended m h _ hst]
      rw [show pauses 0 v = FrameCode.ret v from rfl, exec_ret, getFrame_setFrame_same]
  | succ n ih =>
    intro m h hst hdone
    have hres : m.resumeFrame h = m.exec h (FrameCode.pause (pauses n v)) :=
      resumeFrame_suspended m h _ hst
    have h1 : ((m.resumeFrame h).getFrame h).status = FrameStatus.suspended (pauses n v) := by
      rw [hres, exec_pause, getFrame_setFrame_same]
    have h2 : ((m.resumeFrame h).getFrame h).m_done = false := by
      rw [hres, exec_pause, getFrame_setFrame_same]
      exact hdone
    obtain ⟨ih1, ih2⟩ := ih (m.resumeFrame h) h h1 h2
    refine ⟨?_, ?_⟩
    · intro k hk
      match k with
      | 0 => simpa [resumeN_zero] using hdone
      | k' + 1 =>
        rw [resumeN_succ]
        exact ih1 k' (Nat.le_of_succ_le_succ hk)
    · rw [resumeN_succ]
      exact ih2

theorem tick_single_slot (s : Sys) (hsize : s.sched.m_size = 1) :
    tick s = tickBody s 0 := by
  simp [tick, Scheduler.resume, hsize, tickLoop]

theorem tick_single_pause (s : Sys) (h : Nat) (k : FrameCode)
    (h1 : s.sched.m_coroutines = [h]) (h2 : s.sched.m_size = 1)
    (h3 : (s.mem.getFrame h).status = FrameStatus.suspended (FrameCode.pause k))
    (h4 : (s.mem.getFrame h).m_done = false) :
    tick s =
      Sys.mk
        (Mem.setFrame { s.mem with stepsRun := s.mem.stepsRun + 1 } h
          { s.mem.getFrame h with m_next := some h, status := FrameStatus.suspended k })
        (Scheduler.mk [h] 1) := by
  rw [tick_single_slot s h2, tickBody_pause s 0 h k (by rw [h1]; rfl) h3 h4]
  simp [h1, h2]

theorem tick_single_ret_root (s : Sys) (h : Nat) (v : Nat)
    (h1 : s.sched.m_coroutines = [h]) (h2 : s.sched.m_size = 1)
    (h3 : (s.mem.getFrame h).status = FrameStatus.suspended (FrameCode.ret v))
    (h4 : (s.mem.getFrame h).m_previous = none) :
    (tick s).sched.m_size = 0 := by
  rw [tick_single_slot s h2, tickBody_ret_root s 0 h v (by rw [h1]; rfl) h3 h4]
  simp [h2]

theorem ticks_pauses (n : Nat) (v : Nat) :
    ∀ (s : Sys) (h : Nat),
      s.sched.m_coroutines = [h] → s.sched.m_size = 1 →
      (s.mem.getFrame h).status = FrameStatus.suspended (pauses n v) →
      (s.mem.getFrame h).m_done = false →
      (s.mem.getFrame h).m_previous = none →
      (∀ k, k ≤ n → ((tick^[k]) s).sched.m_size = 1) ∧
      ((tick^[n + 1]) s).sched.m_size = 0 := by
  induction n with
  | zero =>
    intro s h h1 h2 h3 h4 h5
    refine ⟨?_, ?_⟩
    · intro k hk
      have hk0 : k = 0 := Nat.le_zero.mp hk
      subst hk0
      simpa using h2
    · rw [Function.iterate_one]
      exact tick_single_ret_root s h v h1 h2 h3 h5
  | succ n ih =>
    intro s h h1 h2 h3 h4 h5
    have htick := tick_single_pause s h (pauses n v) h1 h2 h3 h4
    have p1 : (tick s).sched.m_coroutines = [h] := by rw [htick]
    have p2 : (tick s).sched.m_size = 1 := by rw [htick]
    have p3 : ((tick s).mem.getFrame h).status = FrameStatus.suspended (pauses n v) := by
      rw [htick]
      simp
    have p4 : ((tick s).mem.getFrame h).m_done = false := by
      rw [htick]
      simpa using h4
    have p5 : ((tick s).mem.getFrame h).m_previous = none := by
      rw [htick]
      simpa using h5
    obtain ⟨ih1, ih2⟩ := ih (tick s) h p1 p2 p3 p4 p5
    refine ⟨?_, ?_⟩
    · intro k hk
      match k with
      | 0 => simpa using h2
      | k' + 1 =>
        rw [Function.iterate_succ_apply]
        exact ih1 k' (Nat.le_of_succ_le_succ hk)
    · rw [Function.iterate_succ_apply]
      exact ih2

/-- C7: for every N, a task whose body contains exactly N sequential pauses
and no awaits is still unfinished after each of its first N resumptions and
finishes on resumption N+1; submitted alone, the driver's live count stays
1 through the first N ticks and is 0 after tick N+1.  In particular (N = 0)
a task with no suspension points finishes on its very first resumption. -/
theorem c7_n_pauses_need_n_plus_one_resumes (n : Nat) (v : Nat) :
    (∀ k, k ≤ n → ((tick^[k]) (submitAll [pauses n v])).sched.m_size = 1) ∧
    ((tick^[n + 1]) (submitAll [pauses n v])).sched.m_size = 0 ∧
    ∀ (m : Mem) (h : Nat),
      (m.getFrame h).status = FrameStatus.suspended (pauses n v) →
      (m.getFrame h).m_done = false →
      (∀ k, k ≤ n → ((resumeN m h k).getFrame h).m_done = false) ∧
      ((resumeN m h (n + 1)).getFrame h).m_done = true := by
  obtain ⟨t1, t2⟩ := ticks_pauses n v (submitAll [pauses n v]) 0 rfl rfl rfl rfl rfl
  exact ⟨t1, t2, fun m h => pauses_need_n_resumes n v m h⟩

/-- Witness for C7 at N = 2 pauses. -/
theorem c7_n_pauses_need_n_plus_one_resumes_witness :
    ((tick^[1]) (submitAll [pauses 2 5])).sched.m_size = 1 ∧
    ((tick^[3]) (submitAll [pauses 2 5])).sched.m_size = 0 ∧
    ((resumeN (submitAll [pauses 2 5]).mem 0 2).getFrame 0).m_done = false ∧
    ((resumeN (submitAll [pauses 2 5]).mem 0 3).getFrame 0).m_done = true := by
  have hm := c7_n_pauses_need_n_plus_one_resumes 2 5
  have hf := hm.2.2 (submitAll [pauses 2 5]).mem 0 rfl rfl
  exact ⟨hm.1 1 (by decide), hm.2.1, hf.1 2 (by decide), hf.2⟩

/-! ### List helpers for the driver-loop inductions -/

theorem list_set_self (l : List Nat) (i : Nat) (hi : i < l.length) :
    l.set i (l.get ⟨i, hi⟩) = l := by
  apply List.ext_getElem
  · simp
  · intro n h1 h2
    rw [List.getElem_set]
    split <;> simp_all

theorem list_drop_set (l : List Nat) (i j : Nat) (a : Nat) (hij : i < j) :
    (l.set i a).drop j = l.drop j := by
  apply List.ext_getElem
  · simp
  · intro n h1 h2
    simp only [List.getElem_drop]
    rw [List.getElem_set_ne (by omega)]

theorem list_dropLast_drop (l : List Nat) (j : Nat) :
    l.dropLast.drop j = (l.drop j).dropLast := by
  rw [List.dropLast_eq_take, List.drop_take, List.dropLast_eq_take, List.length_drop]
  congr 1
  omega

/-! ### Closed form of a freshly submitted batch of tasks -/

theorem submitAll_spec (cs : List FrameCode) :
    (submitAll cs).sched.m_coroutines = List.range cs.length ∧
    (submitAll cs).sched.m_size = cs.length ∧
    (submitAll cs).mem.nextId = cs.length ∧
    (submitAll cs).mem.stepsRun = 0 ∧
    (∀ i, i < cs.length →
      (submitAll cs).mem.getFrame i = rootFrame (cs.getD i (FrameCode.ret 0))) ∧
    (∀ i, cs.length ≤ i → (submitAll cs).mem.getFrame i = deadFrame) := by
  induction cs using List.reverseRecOn with
  | nil =>
    refine ⟨rfl, rfl, rfl, rfl, ?_, ?_⟩ <;> intro i hi
    · simp at hi
    · rfl
  | append_singleton l c ih =>
    obtain ⟨ih1, ih2, ih3, ih4, ih5, ih6⟩ := ih
    have hstep : submitAll (l ++ [c]) = submitOne (submitAll l) c := by
      simp [submitAll, List.foldl_append]
    have hmemeq : (submitOne (submitAll l) c).mem =
        { (submitAll l).mem.setFrame (submitAll l).mem.nextId (rootFrame c) with
            nextId := (submitAll l).mem.nextId + 1 } := rfl
    have hcor : (submitOne (submitAll l) c).sched.m_coroutines =
        (submitAll l).sched.m_coroutines ++ [(submitAll l).mem.nextId] := rfl
    have hsize : (submitOne (submitAll l) c).sched.m_size =
        (submitAll l).sched.m_size + 1 := rfl
    refine ⟨?_, ?_, ?_, ?_, ?_, ?_⟩
    · rw [hstep, hcor, ih1, ih3]
      simp [List.range_succ]
    · rw [hstep, hsize, ih2]
      simp
    · rw [hstep]
      show (submitAll l).mem.nextId + 1 = _
      rw [ih3]
      simp
    · rw [hstep]
      show (submitAll l).mem.stepsRun = 0
      exact ih4
    · intro i hi
      rw [hstep]
      show ({ (submitAll l).mem.setFrame (submitAll l).mem.nextId (rootFrame c) with
          nextId := (submitAll l).mem.nextId + 1 } : Mem).getFrame i = _
      by_cases hieq : i = l.length
      · subst hieq
        rw [ih3]
        have : (Mem.setFrame (submitAll l).mem l.length (rootFrame c)).getFrame l.length =
            rootFrame c := getFrame_setFrame_same _ _ _
        refine Eq.trans this ?_
        congr 1
        rw [List.getD_eq_getElem _ _ (by simp)]
        simp
      · have hilt : i < l.length := by
          simp at hi
          omega
        have hne : i ≠ (submitAll l).mem.nextId := by rw [ih3]; exact fun hc => hieq hc
        have : ({ (submitAll l).mem.setFrame (submitAll l).mem.nextId (rootFrame c) with
            nextId := (submitAll l).mem.nextId + 1 } : Mem).getFrame i =
            (submitAll l).mem.getFrame i := getFrame_setFrame_ne _ _ _ _ hne
        rw [this, ih5 i hilt]
        have hg : (l ++ [c]).getD i (FrameCode.ret 0) = l.getD i (FrameCode.ret 0) := by
          rw [List.getD_eq_getElem _ _ (by simp only [List.length_append]; omega),
            List.getD_eq_getElem _ _ hilt]
          exact List.getElem_append_left hilt
        rw [hg]
    · intro i hi
      rw [hstep]
      have hgt : l.length < i := by
        simp only [List.length_append, List.length_singleton] at hi
        omega
      have hne : i ≠ (submitAll l).mem.nextId := by
        rw [ih3]
        omega
      have h2 : (submitOne (submitAll l) c).mem.getFrame i =
          (submitAll l).mem.getFrame i := getFrame_setFrame_ne _ _ _ _ hne
      rw [h2, ih6 i (by omega)]

/-! ### A tick over single-pause tasks: every slot pauses, nothing retires -/

theorem tickLoop_all_pause (fuel : Nat) :
    ∀ (s : Sys) (i : Nat),
      s.sched.m_size = s.sched.m_coroutines.length →
      s.sched.m_size ≤ i + fuel →
      (s.sched.m_coroutines.drop i).Nodup →
      (∀ h ∈ s.sched.m_coroutines.drop i,
        (s.mem.getFrame h).status =
          FrameStatus.suspended (FrameCode.pause (FrameCode.ret 0)) ∧
        (s.mem.getFrame h).m_done = false ∧
        (s.mem.getFrame h).m_previous = none) →
      (tickLoop fuel s i).sched.m_coroutines = s.sched.m_coroutines ∧
      (tickLoop fuel s i).sched.m_size = s.sched.m_size ∧
      (tickLoop fuel s i).mem.stepsRun = s.mem.stepsRun + (s.sched.m_size - i) ∧
      (∀ h ∈ s.sched.m_coroutines.drop i,
        ((tickLoop fuel s i).mem.getFrame h).status =
          FrameStatus.suspended (FrameCode.ret 0) ∧
        ((tickLoop fuel s i).mem.getFrame h).m_done = false ∧
        ((tickLoop fuel s i).mem.getFrame h).m_next = some h ∧
        ((tickLoop fuel s i).mem.getFrame h).m_previous = none) ∧
      (∀ j, j ∉ s.sched.m_coroutines.drop i →
        (tickLoop fuel s i).mem.getFrame j = s.mem.getFrame j) := by
  induction fuel with
  | zero =>
    intro s i hlen hfuel hnd hfr
    have hdrop : s.sched.m_coroutines.drop i = [] :=
      List.drop_eq_nil_of_le (by omega)
    exact ⟨rfl, rfl,
      by show s.mem.stepsRun = s.mem.stepsRun + (s.sched.m_size - i); omega,
      by rw [hdrop]; simp, fun j _ => rfl⟩
  | succ fuel ih =>
    intro s i hlen hfuel hnd hfr
    by_cases hi : i < s.sched.m_size
    · have hil : i < s.sched.m_coroutines.length := by omega
      have hgetD : s.sched.m_coroutines.getD i 0 = s.sched.m_coroutines[i] :=
        List.getD_eq_getElem _ 0 hil
      have hdropc : s.sched.m_coroutines.drop i =
          s.sched.m_coroutines[i] :: s.sched.m_coroutines.drop (i + 1) :=
        List.drop_eq_getElem_cons hil
      have hmem : s.sched.m_coroutines[i] ∈ s.sched.m_coroutines.drop i := by
        rw [hdropc]
        exact List.mem_cons_self _ _
      obtain ⟨hst, hdone, hprev⟩ := hfr _ hmem
      have hheadout : s.sched.m_coroutines[i] ∉ s.sched.m_coroutines.drop (i + 1) := by
        have := hnd
        rw [hdropc] at this
        exact (List.nodup_cons.mp this).1
      have hone : tickLoop (fuel + 1) s i = tickLoop fuel (tickBody s i) (i + 1) := by
        simp only [tickLoop, if_pos hi]
      have htb := tickBody_pause s i s.sched.m_coroutines[i] (FrameCode.ret 0) hgetD hst hdone
      have hsetl : s.sched.m_coroutines.set i s.sched.m_coroutines[i] =
          s.sched.m_coroutines := list_set_self _ _ hil
      rw [hsetl] at htb
      have hb1 : (tickBody s i).sched.m_coroutines = s.sched.m_coroutines := by rw [htb]
      have hb2 : (tickBody s i).sched.m_size = s.sched.m_size := by rw [htb]
      have hb3 : (tickBody s i).mem.stepsRun = s.mem.stepsRun + 1 := by rw [htb]; rfl
      have hbsame : ((tickBody s i).mem.getFrame s.sched.m_coroutines[i]) =
          { s.mem.getFrame s.sched.m_coroutines[i] with
              m_next := some s.sched.m_coroutines[i]
              status := FrameStatus.suspended (FrameCode.ret 0) } := by
        rw [htb]
        exact getFrame_setFrame_same _ _ _
      have hbother : ∀ j, j ≠ s.sched.m_coroutines[i] →
          (tickBody s i).mem.getFrame j = s.mem.getFrame j := by
        intro j hj
        rw [htb]
        exact getFrame_setFrame_ne _ _ _ _ hj
      obtain ⟨q1, q2, q3, q4, q5⟩ := ih (tickBody s i) (i + 1)
        (by rw [hb1, hb2, hlen])
        (by rw [hb2]; omega)
        (by rw [hb1]
            have := hnd
            rw [hdropc] at this
            exact (List.nodup_cons.mp this).2)
        (by rw [hb1]
            intro h hmem1
            have hne : h ≠ s.sched.m_coroutines[i] := fun hc => hheadout (hc ▸ hmem1)
            rw [hbother h hne]
            exact hfr h (by rw [hdropc]; exact List.mem_cons_of_mem _ hmem1))
      rw [hone]
      refine ⟨by rw [q1, hb1], by rw [q2, hb2], ?_, ?_, ?_⟩
      · rw [q3, hb3, hb2]
        omega
      · intro h hmem1
        rw [hdropc] at hmem1
        rcases List.mem_cons.mp hmem1 with hc | hc
        · subst hc
          rw [q5 _ (by rw [hb1]; exact hheadout), hbsame]
          exact ⟨rfl, hdone, rfl, hprev⟩
        · have := q4 h (by rw [hb1]; exact hc)
          exact this
      · intro j hj
        have hj1 : j ∉ (tickBody s i).sched.m_coroutines.drop (i + 1) := by
          rw [hb1]
          intro hc
          exact hj (by rw [hdropc]; exact List.mem_cons_of_mem _ hc)
        have hj2 : j ≠ s.sched.m_coroutines[i] := by
          intro hc
          exact hj (hc ▸ hmem)
        rw [q5 j hj1, hbother j hj2]
    · have hdrop : s.sched.m_coroutines.drop i = [] :=
        List.drop_eq_nil_of_le (by omega)
      have hloop : tickLoop (fuel + 1) s i = s := by
        simp only [tickLoop, if_neg hi]
      rw [hloop]
      exact ⟨rfl, rfl,
        by show s.mem.stepsRun = s.mem.stepsRun + (s.sched.m_size - i); omega,
        by rw [hdrop]; simp, fun j _ => rfl⟩

/-! ### A tick over finished-ready roots: the swap-with-last removal skips
every other slot, so only half of the slots retire per tick -/

theorem tickLoop_all_finish (fuel : Nat) :
    ∀ (s : Sys) (i : Nat),
      s.sched.m_size = s.sched.m_coroutines.length →
      s.sched.m_size ≤ i + fuel →
      (s.sched.m_coroutines.drop i).Nodup →
      (∀ h ∈ s.sched.m_coroutines.drop i,
        (∃ v, (s.mem.getFrame h).status = FrameStatus.suspended (FrameCode.ret v)) ∧
        (s.mem.getFrame h).m_previous = none) →
      (tickLoop fuel s i).sched.m_size =
        s.sched.m_size - (s.sched.m_size - i + 1) / 2 := by
  induction fuel with
  | zero =>
    intro s i hlen hfuel hnd hfr
    have : s.sched.m_size - i = 0 := by omega
    rw [this]
    show s.sched.m_size = _
    omega
  | succ fuel ih =>
    intro s i hlen hfuel hnd hfr
    by_cases hi : i < s.sched.m_size
    · have hil : i < s.sched.m_coroutines.length := by omega
      have hgetD : s.sched.m_coroutines.getD i 0 = s.sched.m_coroutines[i] :=
        List.getD_eq_getElem _ 0 hil
      have hdropc : s.sched.m_coroutines.drop i =
          s.sched.m_coroutines[i] :: s.sched.m_coroutines.drop (i + 1) :=
        List.drop_eq_getElem_cons hil
      have hmem : s.sched.m_coroutines[i] ∈ s.sched.m_coroutines.drop i := by
        rw [hdropc]
        exact List.mem_cons_self _ _
      obtain ⟨⟨v, hst⟩, hprev⟩ := hfr _ hmem
      have hheadout : s.sched.m_coroutines[i] ∉ s.sched.m_coroutines.drop (i + 1) := by
        have := hnd
        rw [hdropc] at this
        exact (List.nodup_cons.mp this).1
      have hone : tickLoop (fuel + 1) s i = tickLoop fuel (tickBody s i) (i + 1) := by
        simp only [tickLoop, if_pos hi]
      have htb := tickBody_ret_root s i s.sched.m_coroutines[i] v hgetD hst hprev
      have hb1 : (tickBody s i).sched.m_coroutines =
          ((s.sched.m_coroutines.set i (s.sched.m_coroutines.getLast?.getD 0)).dropLast) := by
        rw [htb]
      have hb2 : (tickBody s i).sched.m_size = s.sched.m_size - 1 := by rw [htb]
      have hbother : ∀ j, j ≠ s.sched.m_coroutines[i] →
          (tickBody s i).mem.getFrame j = s.mem.getFrame j := by
        intro j hj
        rw [htb]
        exact getFrame_setFrame_ne _ _ _ _ hj
      have hdrop1 : (tickBody s i).sched.m_coroutines.drop (i + 1) =
          (s.sched.m_coroutines.drop (i + 1)).dropLast := by
        rw [hb1, list_dropLast_drop, list_drop_set _ _ _ _ (by omega)]
      have hsub : ∀ h ∈ (tickBody s i).sched.m_coroutines.drop (i + 1),
          h ∈ s.sched.m_coroutines.drop (i + 1) := by
        intro h hmem1
        rw [hdrop1] at hmem1
        exact (List.dropLast_sublist _).subset hmem1
      have := ih (tickBody s i) (i + 1)
        (by rw [hb1, hb2]
            simp only [List.length_dropLast, List.length_set]
            omega)
        (by rw [hb2]; omega)
        (by rw [hdrop1]
            refine ((List.dropLast_sublist _).nodup ?_)
            have := hnd
            rw [hdropc] at this
            exact (List.nodup_cons.mp this).2)
        (by intro h hmem1
            have hmem2 := hsub h hmem1
            have hne : h ≠ s.sched.m_coroutines[i] := fun hc => hheadout (hc ▸ hmem2)
            rw [hbother h hne]
            exact hfr h (by rw [hdropc]; exact List.mem_cons_of_mem _ hmem2))
      rw [hone, this, hb2]
      omega
    · have : s.sched.m_size - i = 0 := by omega
      have hloop : tickLoop (fuel + 1) s i = s := by
        simp only [tickLoop, if_neg hi]
      rw [hloop, this]
      omega

/-! ### C1: a batch of K single-pause tasks across two ticks -/

/-- C1, counterexample to the claim as stated: with K = 2 independent
single-pause tasks submitted, the second call to `tick` does not finish all
of them — the swap-with-last removal moves a not-yet-visited handle into
the removed slot and the loop's `++i` then skips it, so the live count
after two ticks is 1, not 0. -/
theorem c1_counterexample_two_tasks :
    ¬ (tick (tick (submitAll (List.replicate 2 pauseCode)))).sched.m_size = 0 := by
  decide

/-- C1 as amended: for every K ≥ 1, after submitting K independent
single-pause tasks, one tick leaves all K live, each having been resumed
and paused exactly once (K body segments run, every tracked frame parked at
its `co_return` with `done` unset); the second tick finishes only ⌈K/2⌉ of
them, leaving ⌊K/2⌋ live, because each swap-with-last removal skips the
slot it refills. -/
theorem c1_single_pause_batch (K : Nat) (hK : 1 ≤ K) :
    (tick (submitAll (List.replicate K pauseCode))).sched.m_size = K ∧
    (tick (submitAll (List.replicate K pauseCode))).mem.stepsRun = K ∧
    (∀ h ∈ (tick (submitAll (List.replicate K pauseCode))).sched.m_coroutines,
      ((tick (submitAll (List.replicate K pauseCode))).mem.getFrame h).status =
        FrameStatus.suspended (FrameCode.ret 0) ∧
      ((tick (submitAll (List.replicate K pauseCode))).mem.getFrame h).m_done = false) ∧
    (tick (tick (submitAll (List.replicate K pauseCode)))).sched.m_size = K / 2 := by
  obtain ⟨sp1, sp2, sp3, sp4, sp5, sp6⟩ := submitAll_spec (List.replicate K pauseCode)
  rw [List.length_replicate] at sp1 sp2 sp3
  have hfr0 : ∀ h ∈ (submitAll (List.replicate K pauseCode)).sched.m_coroutines.drop 0,
      ((submitAll (List.replicate K pauseCode)).mem.getFrame h).status =
        FrameStatus.suspended (FrameCode.pause (FrameCode.ret 0)) ∧
      ((submitAll (List.replicate K pauseCode)).mem.getFrame h).m_done = false ∧
      ((submitAll (List.replicate K pauseCode)).mem.getFrame h).m_previous = none := by
    intro h hmem
    rw [List.drop_zero, sp1] at hmem
    have hlt : h < K := List.mem_range.mp hmem
    have := sp5 h (by simpa using hlt)
    rw [this]
    have hgd : (List.replicate K pauseCode).getD h (FrameCode.ret 0) = pauseCode := by
      rw [List.getD_eq_getElem _ _ (by simpa using hlt)]
      simp
    rw [hgd]
    exact ⟨rfl, rfl, rfl⟩
  have htick1 : tick (submitAll (List.replicate K pauseCode)) =
      tickLoop (submitAll (List.replicate K pauseCode)).sched.m_size
        (submitAll (List.replicate K pauseCode)) 0 := rfl
  obtain ⟨t1, t2, t3, t4, t5⟩ :=
    tickLoop_all_pause (submitAll (List.replicate K pauseCode)).sched.m_size
      (submitAll (List.replicate K pauseCode)) 0
      (by rw [sp2, sp1, List.length_range])
      (by omega)
      (by rw [List.drop_zero, sp1]; exact List.nodup_range K)
      hfr0
  rw [List.drop_zero] at t4 t5
  refine ⟨?_, ?_, ?_, ?_⟩
  · rw [htick1, t2, sp2]
  · rw [htick1, t3, sp4, sp2]
    omega
  · intro h hmem
    rw [htick1] at hmem ⊢
    rw [t1] at hmem
    exact ⟨(t4 h hmem).1, (t4 h hmem).2.1⟩
  · have hsz1 : (tick (submitAll (List.replicate K pauseCode))).sched.m_size = K := by
      rw [htick1, t2, sp2]
    have hcor1 : (tick (submitAll (List.replicate K pauseCode))).sched.m_coroutines =
        List.range K := by
      rw [htick1, t1, sp1]
    have htick2 : tick (tick (submitAll (List.replicate K pauseCode))) =
        tickLoop (tick (submitAll (List.replicate K pauseCode))).sched.m_size
          (tick (submitAll (List.replicate K pauseCode))) 0 := rfl
    have hfin :=
      tickLoop_all_finish (tick (submitAll (List.replicate K pauseCode))).sched.m_size
        (tick (submitAll (List.replicate K pauseCode))) 0
        (by rw [hsz1, hcor1, List.length_range])
        (by omega)
        (by rw [List.drop_zero, hcor1]; exact List.nodup_range K)
        (by intro h hmem
            rw [List.drop_zero, hcor1] at hmem
            rw [htick1]
            have hmem0 : h ∈ (submitAll (List.replicate K pauseCode)).sched.m_coroutines := by
              rw [sp1]
              exact hmem
            exact ⟨⟨0, (t4 h hmem0).1⟩, (t4 h hmem0).2.2.2⟩)
    rw [htick2, hfin, hsz1]
    omega

/-- Witness for C1 at K = 3: after one tick all 3 are live with 3 body
segments run; the second tick leaves ⌊3/2⌋ = 1 live. -/
theorem c1_single_pause_batch_witness :
    (tick (submitAll (List.replicate 3 pauseCode))).sched.m_size = 3 ∧
    (tick (submitAll (List.replicate 3 pauseCode))).mem.stepsRun = 3 ∧
    ((tick (submitAll (List.replicate 3 pauseCode))).mem.getFrame 0).status =
      FrameStatus.suspended (FrameCode.ret 0) ∧
    (tick (tick (submitAll (List.replicate 3 pauseCode)))).sched.m_size = 1 := by
  have hm := c1_single_pause_batch 3 (by decide)
  refine ⟨hm.1, hm.2.1, (hm.2.2.1 0 (by decide)).1, ?_⟩
  have := hm.2.2.2
  rw [show (3 : Nat) / 2 = 1 from rfl] at this
  exact this

/-! ### C8: weight accounting for the driver's termination measure -/

theorem sum_weight_update (F : Nat → Frame) (n h : Nat) (f : Frame) (hh : h < n) :
    (∑ i ∈ Finset.range n, (if i = h then f else F i).weight) + (F h).weight =
      (∑ i ∈ Finset.range n, (F i).weight) + f.weight := by
  have hmem : h ∈ Finset.range n := Finset.mem_range.mpr hh
  have l1 : (∑ i ∈ Finset.range n, (if i = h then f else F i).weight) =
      (∑ i ∈ (Finset.range n).erase h, (if i = h then f else F i).weight) +
        (if h = h then f else F h).weight := (Finset.sum_erase_add _ _ hmem).symm
  have l2 : (∑ i ∈ Finset.range n, (F i).weight) =
      (∑ i ∈ (Finset.range n).erase h, (F i).weight) + (F h).weight :=
    (Finset.sum_erase_add _ _ hmem).symm
  have l3 : (∑ i ∈ (Finset.range n).erase h, (if i = h then f else F i).weight) =
      ∑ i ∈ (Finset.range n).erase h, (F i).weight := by
    apply Finset.sum_congr rfl
    intro x hx
    rw [if_neg (Finset.ne_of_mem_erase hx)]
  rw [l1, l3, l2, if_pos rfl]
  ring

theorem totalWeight_set_bump (m : Mem) (x : Nat) (h : Nat) (f : Frame)
    (hh : h < m.nextId) :
    totalWeight (Mem.setFrame { m with stepsRun := x } h f) + (m.getFrame h).weight =
      totalWeight m + f.weight := by
  have h1 : totalWeight (Mem.setFrame { m with stepsRun := x } h f) =
      ∑ i ∈ Finset.range m.nextId, (if i = h then f else m.frames i).weight := rfl
  have h2 : totalWeight m = ∑ i ∈ Finset.range m.nextId, (m.frames i).weight := rfl
  rw [h1, h2]
  exact sum_weight_update m.frames m.nextId h f hh

theorem totalWeight_modify_neutral (m : Mem) (h : Nat) (g : Frame → Frame)
    (hw : ∀ f, (g f).weight = f.weight) :
    totalWeight (m.modifyFrame h g) = totalWeight m := by
  show (∑ i ∈ Finset.range m.nextId, (if i = h then g (m.frames h) else m.frames i).weight) =
    ∑ i ∈ Finset.range m.nextId, (m.frames i).weight
  apply Finset.sum_congr rfl
  intro x _
  by_cases hxh : x = h
  · subst hxh
    rw [if_pos rfl, hw]
  · rw [if_neg hxh]

/-- One executed body segment: the heap of frames after `exec` has exactly
one suspension point less in total, new links stay inside the allocated
region, a frame only becomes `done` by reaching `final_suspend`, and the
only other frame possibly touched is a freshly created, unstarted child. -/
theorem exec_spec (m : Mem) (h : Nat) (c : FrameCode) (hlt : h < m.nextId)
    (hplt : ∀ p, (m.getFrame h).m_previous = some p → p < m.nextId) :
    m.nextId ≤ (m.exec h c).nextId ∧
    (totalWeight (m.exec h c) + 1 + (m.getFrame h).weight = totalWeight m + c.weight) ∧
    (∀ nxt, ((m.exec h c).getFrame h).m_next = some nxt → nxt < (m.exec h c).nextId) ∧
    (((m.exec h c).getFrame h).m_done = true →
      ((m.exec h c).getFrame h).status = FrameStatus.final ∨ (m.getFrame h).m_done = true) ∧
    (((m.exec h c).getFrame h).status = FrameStatus.final →
      ((m.exec h c).getFrame h).m_done = true) ∧
    (∀ p, ((m.exec h c).getFrame h).m_previous = some p → p < (m.exec h c).nextId) ∧
    (∀ j, j ≠ h →
      ((m.exec h c).getFrame j = m.getFrame j ∨
        (((m.exec h c).getFrame j).status ≠ FrameStatus.final ∧
         ((m.exec h c).getFrame j).m_previous = some h ∧
         ((m.exec h c).getFrame j).m_done = false))) := by
  cases c with
  | pause k =>
    rw [exec_pause]
    refine ⟨le_refl _, ?_, ?_, ?_, ?_, ?_, ?_⟩
    · have hb := totalWeight_set_bump m (m.stepsRun + 1) h { m.getFrame h with m_next := some h, status := FrameStatus.suspended k } hlt
      have hw : Frame.weight { m.getFrame h with m_next := some h, status := FrameStatus.suspended k } = k.weight := rfl
      rw [hw] at hb
      have hcw : (FrameCode.pause k).weight = 1 + k.weight := rfl
      rw [hcw]
      omega
    · intro nxt hx
      rw [getFrame_setFrame_same] at hx
      have h2 : some h = some nxt := hx
      have h3 := Option.some.inj h2
      show nxt < m.nextId
      omega
    · intro hd
      rw [getFrame_setFrame_same] at hd ⊢
      exact Or.inr hd
    · intro hf
      rw [getFrame_setFrame_same] at hf
      simp at hf
    · intro p hp
      rw [getFrame_setFrame_same] at hp
      exact hplt p hp
    · intro j hj
      exact Or.inl (getFrame_setFrame_ne _ _ _ _ hj)
  | ret v =>
    rw [exec_ret]
    refine ⟨le_refl _, ?_, ?_, ?_, ?_, ?_, ?_⟩
    · have hb := totalWeight_set_bump m (m.stepsRun + 1) h { m.getFrame h with m_done := true, m_data := some v, m_next := (m.getFrame h).m_previous, status := FrameStatus.final } hlt
      have hw : Frame.weight { m.getFrame h with m_done := true, m_data := some v, m_next := (m.getFrame h).m_previous, status := FrameStatus.final } = 0 := rfl
      rw [hw] at hb
      have hcw : (FrameCode.ret v).weight = 1 := rfl
      rw [hcw]
      omega
    · intro nxt hx
      rw [getFrame_setFrame_same] at hx
      exact hplt nxt hx
    · intro _
      rw [getFrame_setFrame_same]
      exact Or.inl rfl
    · intro _
      rw [getFrame_setFrame_same]
    · intro p hp
      rw [getFrame_setFrame_same] at hp
      exact hplt p hp
    · intro j hj
      exact Or.inl (getFrame_setFrame_ne _ _ _ _ hj)
  | retRead =>
    rw [exec_retRead]
    refine ⟨le_refl _, ?_, ?_, ?_, ?_, ?_, ?_⟩
    · have hb := totalWeight_set_bump m (m.stepsRun + 1) h { m.getFrame h with m_done := true, m_data := (m.getFrame h).lastRead, m_next := (m.getFrame h).m_previous, status := FrameStatus.final } hlt
      have hw : Frame.weight { m.getFrame h with m_done := true, m_data := (m.getFrame h).lastRead, m_next := (m.getFrame h).m_previous, status := FrameStatus.final } = 0 := rfl
      rw [hw] at hb
      have hcw : FrameCode.retRead.weight = 1 := rfl
      rw [hcw]
      omega
    · intro nxt hx
      rw [getFrame_setFrame_same] at hx
      exact hplt nxt hx
    · intro _
      rw [getFrame_setFrame_same]
      exact Or.inl rfl
    · intro _
      rw [getFrame_setFrame_same]
    · intro p hp
      rw [getFrame_setFrame_same] at hp
      exact hplt p hp
    · intro j hj
      exact Or.inl (getFrame_setFrame_ne _ _ _ _ hj)
  | await cc k =>
    have hne : h ≠ m.nextId := by omega
    rw [exec_await m h cc k hne]
    have hGh : (Mem.mk (fun i => if i = h then { m.getFrame h with m_next := some m.nextId, status := FrameStatus.awaiting m.nextId k } else if i = m.nextId then { rootFrame cc with m_previous := some h } else m.frames i) (m.nextId + 1) (m.stepsRun + 1)).getFrame h = { m.getFrame h with m_next := some m.nextId, status := FrameStatus.awaiting m.nextId k } := by
      show (if h = h then _ else _) = _
      rw [if_pos rfl]
    refine ⟨by show m.nextId ≤ m.nextId + 1; omega, ?_, ?_, ?_, ?_, ?_, ?_⟩
    · have e1 : totalWeight (Mem.mk (fun i => if i = h then { m.getFrame h with m_next := some m.nextId, status := FrameStatus.awaiting m.nextId k } else if i = m.nextId then { rootFrame cc with m_previous := some h } else m.frames i) (m.nextId + 1) (m.stepsRun + 1)) = (∑ i ∈ Finset.range m.nextId, (if i = h then ({ m.getFrame h with m_next := some m.nextId, status := FrameStatus.awaiting m.nextId k } : Frame) else if i = m.nextId then { rootFrame cc with m_previous := some h } else m.frames i).weight) + (if m.nextId = h then ({ m.getFrame h with m_next := some m.nextId, status := FrameStatus.awaiting m.nextId k } : Frame) else if m.nextId = m.nextId then { rootFrame cc with m_previous := some h } else m.frames m.nextId).weight := by
        show (∑ i ∈ Finset.range (m.nextId + 1), _) = _
        exact Finset.sum_range_succ _ _
      have e2 : (if m.nextId = h then ({ m.getFrame h with m_next := some m.nextId, status := FrameStatus.awaiting m.nextId k } : Frame) else if m.nextId = m.nextId then { rootFrame cc with m_previous := some h } else m.frames m.nextId).weight = cc.weight := by
        rw [if_neg (Ne.symm hne), if_pos rfl]
        rfl
      have e3 : (∑ i ∈ Finset.range m.nextId, (if i = h then ({ m.getFrame h with m_next := some m.nextId, status := FrameStatus.awaiting m.nextId k } : Frame) else if i = m.nextId then { rootFrame cc with m_previous := some h } else m.frames i).weight) = ∑ i ∈ Finset.range m.nextId, (if i = h then ({ m.getFrame h with m_next := some m.nextId, status := FrameStatus.awaiting m.nextId k } : Frame) else m.frames i).weight := by
        apply Finset.sum_congr rfl
        intro x hx
        have hxn : x ≠ m.nextId := by
          have := Finset.mem_range.mp hx
          omega
        by_cases hxh : x = h
        · rw [if_pos hxh, if_pos hxh]
        · rw [if_neg hxh, if_neg hxh, if_neg hxn]
      have e4 : (∑ i ∈ Finset.range m.nextId, (if i = h then ({ m.getFrame h with m_next := some m.nextId, status := FrameStatus.awaiting m.nextId k } : Frame) else m.frames i).weight) + (m.getFrame h).weight = (∑ i ∈ Finset.range m.nextId, (m.frames i).weight) + k.weight := sum_weight_update m.frames m.nextId h { m.getFrame h with m_next := some m.nextId, status := FrameStatus.awaiting m.nextId k } hlt
      have e6 : totalWeight m = ∑ i ∈ Finset.range m.nextId, (m.frames i).weight := rfl
      have e7 : (FrameCode.await cc k).weight = 1 + cc.weight + k.weight := rfl
      rw [e1, e2, e3, e7, e6]
      omega
    · intro nxt hx
      rw [hGh] at hx
      have h2 : some m.nextId = some nxt := hx
      have h3 := Option.some.inj h2
      show nxt < m.nextId + 1
      omega
    · intro hd
      rw [hGh] at hd ⊢
      exact Or.inr hd
    · intro hf
      rw [hGh] at hf
      simp at hf
    · intro p hp
      rw [hGh] at hp
      have := hplt p hp
      show p < m.nextId + 1
      omega
    · intro j hj
      by_cases hjn : j = m.nextId
      · subst hjn
        right
        have hGn : (Mem.mk (fun i => if i = h then { m.getFrame h with m_next := some m.nextId, status := FrameStatus.awaiting m.nextId k } else if i = m.nextId then { rootFrame cc with m_previous := some h } else m.frames i) (m.nextId + 1) (m.stepsRun + 1)).getFrame m.nextId = { rootFrame cc with m_previous := some h } := by
          show (if m.nextId = h then _ else if m.nextId = m.nextId then _ else _) = _
          rw [if_neg (Ne.symm hne), if_pos rfl]
        rw [hGn]
        refine ⟨by simp [rootFrame], rfl, rfl⟩
      · left
        show (if j = h then _ else if j = m.nextId then _ else m.frames j) = m.getFrame j
        rw [if_neg hj, if_neg hjn]
        rfl

/-- One `handle.resume()` as the driver performs it: on a frame not parked
at `final_suspend` it consumes exactly one suspension point of total
weight; on a (destructed) final frame it is a no-op with a null `m_next`;
links produced stay inside the allocated region. -/
theorem resumeFrame_spec (m : Mem) (h : Nat) (hlt : h < m.nextId)
    (hdf : (m.getFrame h).m_done = true → (m.getFrame h).status = FrameStatus.final)
    (hfd : (m.getFrame h).status = FrameStatus.final →
      (m.getFrame h).m_data = none ∧ (m.getFrame h).m_next = none ∧
        (m.getFrame h).m_previous = none)
    (hplt : ∀ p, (m.getFrame h).m_previous = some p → p < m.nextId) :
    m.nextId ≤ (m.resumeFrame h).nextId ∧
    ((m.getFrame h).status ≠ FrameStatus.final →
      totalWeight (m.resumeFrame h) + 1 = totalWeight m) ∧
    ((m.getFrame h).status = FrameStatus.final →
      m.resumeFrame h = m ∧ ((m.resumeFrame h).getFrame h).m_next = none) ∧
    (∀ nxt, ((m.resumeFrame h).getFrame h).m_next = some nxt →
      nxt < (m.resumeFrame h).nextId) ∧
    (((m.resumeFrame h).getFrame h).m_done = true →
      ((m.resumeFrame h).getFrame h).status = FrameStatus.final) ∧
    (((m.resumeFrame h).getFrame h).status = FrameStatus.final →
      ((m.resumeFrame h).getFrame h).m_done = true ∨
        ((m.resumeFrame h).getFrame h).m_next = none) ∧
    (∀ p, ((m.resumeFrame h).getFrame h).m_previous = some p →
      p < (m.resumeFrame h).nextId) ∧
    (∀ j, j ≠ h →
      ((m.resumeFrame h).getFrame j = m.getFrame j ∨
        (((m.resumeFrame h).getFrame j).status ≠ FrameStatus.final ∧
         ((m.resumeFrame h).getFrame j).m_previous = some h ∧
         ((m.resumeFrame h).getFrame j).m_done = false))) := by
  cases hst : (m.getFrame h).status with
  | suspended c =>
    have hres : m.resumeFrame h = m.exec h c := resumeFrame_suspended m h c hst
    have holdnotdone : (m.getFrame h).m_done = false := by
      cases hdone : (m.getFrame h).m_done
      · rfl
      · rw [hdf hdone] at hst
        cases hst
    have hwold : (m.getFrame h).weight = c.weight := by
      unfold Frame.weight
      rw [hst]
    obtain ⟨e1, e2, e3, e4, e5, e6, e7⟩ := exec_spec m h c hlt hplt
    rw [hres]
    refine ⟨e1, fun _ => by omega, fun hc => FrameStatus.noConfusion hc, e3, ?_, ?_, e6, e7⟩
    · intro hd
      rcases e4 hd with hfin | holddone
      · exact hfin
      · rw [holdnotdone] at holddone
        cases holddone
    · intro hf
      exact Or.inl (e5 hf)
  | awaiting ch k =>
    have hres : m.resumeFrame h =
        (m.modifyFrame h fun f => { f with lastRead := (m.getFrame ch).m_data }).exec h k :=
      resumeFrame_awaiting m h ch k hst
    have holdnotdone : (m.getFrame h).m_done = false := by
      cases hdone : (m.getFrame h).m_done
      · rfl
      · rw [hdf hdone] at hst
        cases hst
    have hmid : (m.modifyFrame h fun f =>
        { f with lastRead := (m.getFrame ch).m_data }).getFrame h =
        { m.getFrame h with lastRead := (m.getFrame ch).m_data } :=
      getFrame_setFrame_same _ _ _
    have hmidw : totalWeight (m.modifyFrame h fun f =>
        { f with lastRead := (m.getFrame ch).m_data }) = totalWeight m :=
      totalWeight_modify_neutral _ _ _ (fun _ => rfl)
    have hmidwold : ((m.modifyFrame h fun f =>
        { f with lastRead := (m.getFrame ch).m_data }).getFrame h).weight = k.weight := by
      rw [hmid]
      show Frame.weight { m.getFrame h with lastRead := (m.getFrame ch).m_data } = _
      unfold Frame.weight
      rw [show ({ m.getFrame h with lastRead := (m.getFrame ch).m_data } : Frame).status =
        FrameStatus.awaiting ch k from hst]
    have hmidplt : ∀ p, ((m.modifyFrame h fun f =>
        { f with lastRead := (m.getFrame ch).m_data }).getFrame h).m_previous = some p →
        p < (m.modifyFrame h fun f =>
          { f with lastRead := (m.getFrame ch).m_data }).nextId := by
      intro p hp
      rw [hmid] at hp
      exact hplt p hp
    obtain ⟨e1, e2, e3, e4, e5, e6, e7⟩ :=
      exec_spec (m.modifyFrame h fun f => { f with lastRead := (m.getFrame ch).m_data })
        h k hlt hmidplt
    rw [hres]
    refine ⟨e1, fun _ => by omega, fun hc => FrameStatus.noConfusion hc, e3, ?_, ?_, e6, ?_⟩
    · intro hd
      rcases e4 hd with hfin | holddone
      · exact hfin
      · rw [hmid] at holddone
        have : (m.getFrame h).m_done = true := holddone
        rw [holdnotdone] at this
        cases this
    · intro hf
      exact Or.inl (e5 hf)
    · intro j hj
      rcases e7 j hj with hsame | hchild
      · rw [hsame]
        exact Or.inl (getFrame_setFrame_ne _ _ _ _ hj)
      · exact Or.inr hchild
  | final =>
    have hres : m.resumeFrame h = m := resumeFrame_final m h hst
    obtain ⟨hd, hn, hp⟩ := hfd hst
    rw [hres]
    refine ⟨le_refl _, fun hc => absurd rfl hc, fun _ => ⟨rfl, hn⟩, ?_, ?_, ?_, ?_, ?_⟩
    · intro nxt hx
      rw [hn] at hx
      cases hx
    · intro hdone
      exact hst
    · intro _
      exact Or.inr hn
    · intro p hpp
      rw [hp] at hpp
      cases hpp
    · intro j _
      exact Or.inl rfl

theorem tickBody_eq_some (s : Sys) (i : Nat) (h nxt : Nat)
    (hh : s.sched.m_coroutines.getD i 0 = h)
    (hnx : ((s.mem.resumeFrame h).getFrame h).m_next = some nxt) :
    tickBody s i =
      Sys.mk
        (if ((s.mem.resumeFrame h).getFrame h).m_done = true
          then (s.mem.resumeFrame h).modifyFrame h Promise.destruct
          else s.mem.resumeFrame h)
        (Scheduler.mk (s.sched.m_coroutines.set i nxt) s.sched.m_size) := by
  unfold tickBody
  simp only [hh, hnx]

theorem tickBody_eq_none (s : Sys) (i : Nat) (h : Nat)
    (hh : s.sched.m_coroutines.getD i 0 = h)
    (hnx : ((s.mem.resumeFrame h).getFrame h).m_next = none) :
    tickBody s i =
      Sys.mk ((s.mem.resumeFrame h).modifyFrame h Promise.destruct)
        (Scheduler.mk
          ((s.sched.m_coroutines.set i (s.sched.m_coroutines.getLast?.getD 0)).dropLast)
          (s.sched.m_size - 1)) := by
  unfold tickBody
  simp only [hh, hnx]

/-- One driver-loop iteration preserves the invariant and strictly
decreases the termination measure. -/
theorem tickBody_spec (s : Sys) (i : Nat) (hInv : Inv s) (hi : i < s.sched.m_size) :
    Inv (tickBody s i) ∧ sysMeasure (tickBody s i) + 1 ≤ sysMeasure s := by
  obtain ⟨hsz, hslots, hfd, hplt, hdf⟩ := hInv
  have hil : i < s.sched.m_coroutines.length := by omega
  have hgd : s.sched.m_coroutines.getD i 0 = s.sched.m_coroutines[i] :=
    List.getD_eq_getElem _ 0 hil
  have hmem : s.sched.m_coroutines[i] ∈ s.sched.m_coroutines := List.getElem_mem hil
  have hlt : s.sched.m_coroutines[i] < s.mem.nextId := hslots _ hmem
  obtain ⟨S1, S2, S3, S4, S5, S6, S7, S8⟩ :=
    resumeFrame_spec s.mem s.sched.m_coroutines[i] hlt (hdf _) (hfd _) (hplt _)
  set X := s.sched.m_coroutines[i] with hX
  set m1 := s.mem.resumeFrame X with hm1
  cases hnx : (m1.getFrame X).m_next with
  | none =>
    have htb := tickBody_eq_none s i X hgd hnx
    have hlne : s.sched.m_coroutines ≠ [] := by
      intro hc
      rw [hc] at hil
      simp at hil
    have hbmem : s.sched.m_coroutines.getLast?.getD 0 ∈ s.sched.m_coroutines := by
      rw [List.getLast?_eq_getLast _ hlne]
      exact List.getLast_mem hlne
    have hm2h : ((m1.modifyFrame X Promise.destruct).getFrame X) =
        Promise.destruct (m1.getFrame X) := getFrame_setFrame_same _ _ _
    have hm2o : ∀ j, j ≠ X → (m1.modifyFrame X Promise.destruct).getFrame j =
        m1.getFrame j := fun j hj => getFrame_setFrame_ne _ _ _ _ hj
    have hm2w : totalWeight (m1.modifyFrame X Promise.destruct) = totalWeight m1 :=
      totalWeight_modify_neutral _ _ _ (fun _ => rfl)
    have hm2n : (m1.modifyFrame X Promise.destruct).nextId = m1.nextId := rfl
    rw [htb]
    constructor
    · refine ⟨?_, ?_, ?_, ?_, ?_⟩ <;> dsimp only
      · simp only [List.length_dropLast, List.length_set]
        omega
      · intro x hx
        have hx1 := (List.dropLast_sublist _).subset hx
        rw [hm2n]
        rcases List.mem_or_eq_of_mem_set hx1 with hxl | hxb
        · have := hslots x hxl
          omega
        · subst hxb
          have := hslots _ hbmem
          omega
      · intro j
        by_cases hj : j = X
        · subst hj
          rw [hm2h]
          intro _
          exact ⟨rfl, rfl, rfl⟩
        · rw [hm2o j hj]
          rcases S8 j hj with hsame | hchild
          · rw [hsame]
            exact hfd j
          · intro hc
            exact absurd hc hchild.1
      · intro j p
        by_cases hj : j = X
        · subst hj
          rw [hm2h]
          intro hc
          cases hc
        · rw [hm2o j hj, hm2n]
          intro hp
          rcases S8 j hj with hsame | hchild
          · rw [hsame] at hp
            have := hplt j p hp
            omega
          · rw [hchild.2.1] at hp
            have hph := Option.some.inj hp
            omega
      · intro j
        by_cases hj : j = X
        · subst hj
          rw [hm2h]
          intro hd
          exact S5 hd
        · rw [hm2o j hj]
          rcases S8 j hj with hsame | hchild
          · rw [hsame]
            exact hdf j
          · intro hd
            rw [hchild.2.2] at hd
            cases hd
    · dsimp only [sysMeasure]
      rw [hm2w]
      by_cases hstf : (s.mem.getFrame X).status = FrameStatus.final
      · rw [show m1 = s.mem from (S3 hstf).1]
        omega
      · have := S2 hstf
        omega
  | some nxt =>
    have htb := tickBody_eq_some s i X nxt hgd hnx
    have hstnf : (s.mem.getFrame X).status ≠ FrameStatus.final := by
      intro hc
      rw [(S3 hc).2] at hnx
      cases hnx
    have htw := S2 hstnf
    have hm2h2 : ((m1.modifyFrame X Promise.destruct).getFrame X) =
        Promise.destruct (m1.getFrame X) := getFrame_setFrame_same _ _ _
    have hmemtw : totalWeight (if (m1.getFrame X).m_done = true
        then m1.modifyFrame X Promise.destruct else m1) = totalWeight m1 := by
      split
      · exact totalWeight_modify_neutral _ _ _ (fun _ => rfl)
      · rfl
    have hmemnid : (if (m1.getFrame X).m_done = true
        then m1.modifyFrame X Promise.destruct else m1).nextId = m1.nextId := by
      split <;> rfl
    have hgetj : ∀ j, j ≠ X → (if (m1.getFrame X).m_done = true
        then m1.modifyFrame X Promise.destruct else m1).getFrame j = m1.getFrame j := by
      intro j hj
      split
      · exact getFrame_setFrame_ne _ _ _ _ hj
      · rfl
    rw [htb]
    constructor
    · refine ⟨?_, ?_, ?_, ?_, ?_⟩ <;> dsimp only
      · simp only [List.length_set]
        exact hsz
      · intro x hx
        rw [hmemnid]
        rcases List.mem_or_eq_of_mem_set hx with hxl | hxb
        · have := hslots x hxl
          omega
        · subst hxb
          exact S4 x hnx
      · intro j
        by_cases hj : j = X
        · subst hj
          by_cases hdn : (m1.getFrame X).m_done = true
          · rw [if_pos hdn, hm2h2]
            intro _
            exact ⟨rfl, rfl, rfl⟩
          · rw [if_neg hdn]
            intro hfin
            rcases S6 hfin with hd | hn
            · exact absurd hd hdn
            · rw [hn] at hnx
              cases hnx
        · rw [hgetj j hj]
          rcases S8 j hj with hsame | hchild
          · rw [hsame]
            exact hfd j
          · intro hc
            exact absurd hc hchild.1
      · intro j p
        by_cases hj : j = X
        · subst hj
          by_cases hdn : (m1.getFrame X).m_done = true
          · rw [if_pos hdn, hm2h2]
            intro hc
            cases hc
          · rw [if_neg hdn]
            intro hp
            exact S7 p hp
        · rw [hgetj j hj, hmemnid]
          intro hp
          rcases S8 j hj with hsame | hchild
          · rw [hsame] at hp
            have := hplt j p hp
            omega
          · rw [hchild.2.1] at hp
            have hph := Option.some.inj hp
            omega
      · intro j
        by_cases hj : j = X
        · subst hj
          by_cases hdn : (m1.getFrame X).m_done = true
          · rw [if_pos hdn, hm2h2]
            intro hd
            exact S5 hd
          · rw [if_neg hdn]
            intro hd
            exact absurd hd hdn
        · rw [hgetj j hj]
          rcases S8 j hj with hsame | hchild
          · rw [hsame]
            exact hdf j
          · intro hd
            rw [hchild.2.2] at hd
            cases hd
    · dsimp only [sysMeasure]
      rw [hmemtw]
      omega

theorem tickBody_size_le (s : Sys) (i : Nat) :
    (tickBody s i).sched.m_size ≤ s.sched.m_size := by
  cases hnx : ((s.mem.resumeFrame (s.sched.m_coroutines.getD i 0)).getFrame
      (s.sched.m_coroutines.getD i 0)).m_next with
  | none =>
    rw [tickBody_eq_none s i _ rfl hnx]
    dsimp only
    omega
  | some nxt =>
    rw [tickBody_eq_some s i _ nxt rfl hnx]

theorem tickLoop_size_le (fuel : Nat) :
    ∀ (s : Sys) (i : Nat), (tickLoop fuel s i).sched.m_size ≤ s.sched.m_size := by
  induction fuel with
  | zero => exact fun s i => le_refl _
  | succ fuel ih =>
    intro s i
    by_cases hi : i < s.sched.m_size
    · have h1 : tickLoop (fuel + 1) s i = tickLoop fuel (tickBody s i) (i + 1) := by
        simp only [tickLoop, if_pos hi]
      rw [h1]
      exact le_trans (ih _ _) (tickBody_size_le s i)
    · simp only [tickLoop, if_neg hi]
      exact le_refl _

theorem tickLoop_inv (fuel : Nat) :
    ∀ (s : Sys) (i : Nat), Inv s →
      Inv (tickLoop fuel s i) ∧ sysMeasure (tickLoop fuel s i) ≤ sysMeasure s := by
  induction fuel with
  | zero => exact fun s i hInv => ⟨hInv, le_refl _⟩
  | succ fuel ih =>
    intro s i hInv
    by_cases hi : i < s.sched.m_size
    · have h1 : tickLoop (fuel + 1) s i = tickLoop fuel (tickBody s i) (i + 1) := by
        simp only [tickLoop, if_pos hi]
      rw [h1]
      obtain ⟨hI1, hM1⟩ := tickBody_spec s i hInv hi
      obtain ⟨hI2, hM2⟩ := ih (tickBody s i) (i + 1) hI1
      exact ⟨hI2, by omega⟩
    · simp only [tickLoop, if_neg hi]
      exact ⟨hInv, le_refl _⟩

/-- A full tick preserves the invariant and, when any tree is still live,
strictly decreases the termination measure. -/
theorem tick_spec (s : Sys) (hInv : Inv s) :
    Inv (tick s) ∧ (0 < s.sched.m_size → sysMeasure (tick s) < sysMeasure s) := by
  have ht : tick s = tickLoop s.sched.m_size s 0 := rfl
  cases hsz : s.sched.m_size with
  | zero =>
    rw [ht, hsz]
    exact ⟨hInv, fun hc => absurd hc (lt_irrefl 0)⟩
  | succ n =>
    rw [ht, hsz]
    have h1 : tickLoop (n + 1) s 0 = tickLoop n (tickBody s 0) 1 := by
      simp only [tickLoop, if_pos (show 0 < s.sched.m_size by omega)]
    rw [h1]
    obtain ⟨hI1, hM1⟩ := tickBody_spec s 0 hInv (by omega)
    obtain ⟨hI2, hM2⟩ := tickLoop_inv n (tickBody s 0) 1 hI1
    exact ⟨hI2, fun _ => by omega⟩

/-- From any well-formed state, finitely many ticks retire every tree. -/
theorem inv_reaches_zero (W : Nat) :
    ∀ s : Sys, Inv s → sysMeasure s ≤ W →
      ∃ n, ((tick^[n]) s).sched.m_size = 0 := by
  induction W with
  | zero =>
    intro s _ hM
    refine ⟨0, ?_⟩
    have hsm : s.sched.m_size ≤ sysMeasure s := by
      unfold sysMeasure
      omega
    simpa using (by omega : s.sched.m_size = 0)
  | succ W ih =>
    intro s hInv hM
    by_cases hsz : s.sched.m_size = 0
    · exact ⟨0, by simpa using hsz⟩
    · obtain ⟨hI, hlt⟩ := tick_spec s hInv
      have hdec := hlt (by omega)
      obtain ⟨n, hn⟩ := ih (tick s) hI (by omega)
      refine ⟨n + 1, ?_⟩
      rw [Function.iterate_succ_apply]
      exact hn

/-- A batch of freshly submitted tasks is well-formed. -/
theorem Inv_submitAll (cs : List FrameCode) : Inv (submitAll cs) := by
  obtain ⟨sp1, sp2, sp3, sp4, sp5, sp6⟩ := submitAll_spec cs
  refine ⟨?_, ?_, ?_, ?_, ?_⟩
  · rw [sp2, sp1, List.length_range]
  · intro h hmem
    rw [sp1] at hmem
    rw [sp3]
    exact List.mem_range.mp hmem
  · intro h
    by_cases hlt : h < cs.length
    · rw [sp5 h hlt]
      intro hc
      simp [rootFrame] at hc
    · rw [sp6 h (by omega)]
      intro _
      exact ⟨rfl, rfl, rfl⟩
  · intro h p
    by_cases hlt : h < cs.length
    · rw [sp5 h hlt]
      intro hp
      simp [rootFrame] at hp
    · rw [sp6 h (by omega)]
      intro hp
      simp [deadFrame] at hp
  · intro h
    by_cases hlt : h < cs.length
    · rw [sp5 h hlt]
      intro hd
      simp [rootFrame] at hd
    · rw [sp6 h (by omega)]
      intro hd
      simp [deadFrame] at hd

theorem tickResult_of_zero (s : Sys) (hsz : s.sched.m_size = 0) : tickResult s = true := by
  simp [tickResult, Scheduler.resume, hsz, tickLoop]

/-- C8: the driver's live count never increases across ticks, and for every
sequence of submitted tasks, repeated ticks reach live count zero after
finitely many calls, at which point `tick` returns true.  (Every body
expressible as a `FrameCode` is a finite, terminating task graph.) -/
theorem c8_live_count_monotone_reaches_zero :
    (∀ s : Sys, (tick s).sched.m_size ≤ s.sched.m_size) ∧
    ∀ cs : List FrameCode, ∃ n,
      ((tick^[n]) (submitAll cs)).sched.m_size = 0 ∧
      tickResult ((tick^[n]) (submitAll cs)) = true := by
  constructor
  · intro s
    exact tickLoop_size_le s.sched.m_size s 0
  · intro cs
    obtain ⟨n, hn⟩ := inv_reaches_zero (sysMeasure (submitAll cs)) (submitAll cs)
      (Inv_submitAll cs) (le_refl _)
    exact ⟨n, hn, tickResult_of_zero _ hn⟩

end STLessCoro
